import Mathlib

/-
  Verification development for the p5-server sketch-analysis module.

  The embedding below translates the two analysis source files
  (src/unnamed/part_000: Project, findProjects, isSketchHtml, isSketchJs,
  parseOrReadJs; src/unnamed/part_001: checkedParseScript, findFreeVariables,
  findP5MemberReferences) into Lean definitions.  External collaborators
  (esprima, node-html-parser, the file system) are modelled at their
  boundaries: the JavaScript parser is an arbitrary function
  String -> Except String Program, the HTML parser is an arbitrary function
  String -> List (Option String) returning the src attribute of each script
  element in document order (an absent attribute is none), and a directory
  is a list of entries carrying name, kind and content.
-/

namespace P5

/- ===== String utilities (models of the JS string operations used) ===== -/

/-- Model of String.prototype.endsWith, working on the character list. -/
def strEndsWith (s suf : String) : Bool :=
  decide (suf.data.length ≤ s.data.length) &&
    (s.data.drop (s.data.length - suf.data.length) == suf.data)

/-- Model of String.prototype.startsWith, working on the character list. -/
def strStartsWith (s pre : String) : Bool :=
  s.data.take pre.data.length == pre.data

/-- JS string truthiness of a nullable string: null and the empty string are falsy. -/
def strIsEmpty (s : String) : Bool := s.data.isEmpty

/-- Model of path.basename: the component after the last slash. -/
def basename (s : String) : String :=
  ((s.data.reverse.takeWhile (fun c => !(c == '/'))).reverse).asString

/-- Model of path.join for the two-argument uses in the source. -/
def joinPath (dir file : String) : String := dir ++ "/" ++ file

/-- The pattern pat occurs in l starting at index i. -/
def isAt (l : List Char) (i : Nat) (pat : List Char) : Bool :=
  (l.drop i).take pat.length == pat

/-- Word character for the regex metacharacter b-boundary: [A-Za-z0-9_]. -/
def isWordChar (c : Char) : Bool :=
  (('a' ≤ c) && (c ≤ 'z')) || (('A' ≤ c) && (c ≤ 'Z')) ||
  (('0' ≤ c) && (c ≤ '9')) || (c == '_')

/-- A word boundary holds before index i when i is 0 or the previous
character is not a word character (the following character in every use
below is a word character). -/
def boundaryAt (l : List Char) (i : Nat) : Bool :=
  decide (i = 0) || !(isWordChar (l.getD (i - 1) ' '))

/-- JS whitespace class (the ASCII members used by the regex s class). -/
def isJsWs (c : Char) : Bool :=
  (c == ' ') || (c == '\t') || (c == '\n') || (c == '\r') ||
  (c == '\x0b') || (c == '\x0c')

/-- Model of String.prototype.trim on a character list. -/
def trimChars (l : List Char) : List Char :=
  ((l.dropWhile isJsWs).reverse.dropWhile isJsWs).reverse

/-- Greatest index i with i ≤ n and p i, scanning downward from n. -/
def lastPosWhere (p : Nat → Bool) : Nat → Option Nat
  | 0 => if p 0 then some 0 else none
  | n + 1 => if p (n + 1) then some (n + 1) else lastPosWhere p n

/- ===== Regex model 1: the library pattern of isSketchHtml, part_000 line 141.
   Verbatim source pattern (between slashes):  \bp5(\.min)?\.js$
   A match can start at index i only when a word boundary holds at i and,
   because of the end anchor, the rest of the string from i is exactly
   p5.js or p5.min.js. -/

def p5MatchAt (l : List Char) (i : Nat) : Bool :=
  boundaryAt l i && ((l.drop i == "p5.js".data) || (l.drop i == "p5.min.js".data))

/-- Index of the first match of the library pattern, none when there is no match. -/
def p5SearchIdx (s : String) : Option Nat :=
  (List.range (s.data.length + 1)).find? (p5MatchAt s.data)

/-- Model of src.search(regex): the first match index, or -1 without a match. -/
def p5Search (s : String) : Int :=
  match p5SearchIdx s with
  | some i => (i : Int)
  | none => -1

/- ===== Regex model 2: the fallback pattern of isSketchJs, part_000 line 157.
   Verbatim source pattern (between slashes):  function\s+(setup|draw)\b
   After the literal keyword there must be at least one whitespace
   character; setup and draw start with a non-whitespace word character, so
   the whitespace run is consumed maximally and the trailing boundary holds
   iff the next character is absent or not a word character. -/

def wordHereThenBoundary (rest w : List Char) : Bool :=
  (rest.take w.length == w) &&
    (match rest.drop w.length with
     | [] => true
     | c :: _ => !(isWordChar c))

def fnTailMatch (rest : List Char) : Bool :=
  match rest with
  | [] => false
  | c :: cs =>
      isJsWs c &&
        (wordHereThenBoundary (cs.dropWhile isJsWs) "setup".data ||
         wordHereThenBoundary (cs.dropWhile isJsWs) "draw".data)

def fnMatchAt (l : List Char) (i : Nat) : Bool :=
  isAt l i "function".data && fnTailMatch (l.drop (i + 8))

/-- Index of the first match of the fallback pattern. -/
def fnSearchIdx (s : String) : Option Nat :=
  (List.range (s.data.length + 1)).find? (fnMatchAt s.data)

/- ===== Regex model 3: the title pattern of Project.name, part_000 line 45.
   Verbatim source pattern (between slashes, with the s flag):
     .*<title>(.+)<\/title>
   Greedy backtracking semantics: the leading greedy dot-star makes the
   match start at index 0 and hand the opening literal the GREATEST index k
   at which <title> occurs and some closing </title> follows with a
   non-empty gap; the greedy (.+) then hands the closing literal the
   GREATEST index j ≥ k + 8 at which </title> occurs.  The captured group
   is the text strictly between those two positions. -/

def titleOpenChars : List Char := "<title>".data

def titleCloseChars : List Char := "</title>".data

def hasCloseAfter (l : List Char) (k : Nat) : Bool :=
  (List.range (l.length + 1)).any (fun j => decide (k + 8 ≤ j) && isAt l j titleCloseChars)

def titleMatch (l : List Char) : Option (List Char) :=
  match lastPosWhere (fun k => isAt l k titleOpenChars && hasCloseAfter l k) l.length with
  | none => none
  | some k =>
      match lastPosWhere (fun j => decide (k + 8 ≤ j) && isAt l j titleCloseChars) l.length with
      | none => none
      | some j => some ((l.drop (k + 7)).take (j - (k + 7)))

/- ===== Syntax tree (the estree subset the walkers dispatch on) =====
   Node kinds carry exactly the fields the analysed walkers read.  The
   default-value expression of an AssignmentPattern, the init clause of a
   ForStatement and the left clause of a ForInStatement are omitted from
   the model because no walker in the source traverses them (part_001
   lines 81, 88, 211).  Statement and expression kinds outside the
   dispatch tables of the source are collapsed into the constructors
   otherS and otherE, which every walker treats as the default
   console.warn branch: no further traversal. -/

mutual
inductive Pat where
  | identP (name : String)
  | objectPat (props : List PatProp)
  | arrayPat (elems : List Pat)
  | restElem (arg : Pat)
  | assignPat (left : Pat)
  | otherP
inductive PatProp where
  | propP (value : Pat)
  | restP (arg : Pat)
end

mutual
inductive Expr where
  | assign (left : Expr) (right : Expr)
  | binary (left : Expr) (right : Expr)
  | call (callee : Expr) (args : List Arg)
  | member (obj : Expr) (prop : Expr)
  | identE (name : String)
  | lit
  | superKw
  | otherE
inductive Arg where
  | plainArg (e : Expr)
  | spreadArg (e : Expr)
inductive Stmt where
  | functionDecl (id : Option String) (params : List Pat) (body : List Stmt)
  | block (body : List Stmt)
  | doWhile (body : Stmt) (test : Expr)
  | exprStmt (e : Expr)
  | forStmt (test : Option Expr) (update : Option Expr) (body : Stmt)
  | forIn (right : Expr) (body : Stmt)
  | ifStmt (test : Expr) (consequent : Stmt) (alternate : Option Stmt)
  | labeled (body : Stmt)
  | returnStmt (arg : Option Expr)
  | varDecl (decls : List (Pat × Option Expr))
  | whileStmt (test : Expr) (body : Stmt)
  | debuggerStmt
  | emptyStmt
  | breakStmt
  | continueStmt
  | otherS
end

/-- A Program is the body list of the esprima Program node. -/
abbrev Program := List Stmt

/- ===== iterPatternNames, part_001 lines 188 to 215. ===== -/

mutual
def iterPatternNames : Pat → List String
  | .identP name => [name]
  | .objectPat props => iterPatPropListNames props
  | .arrayPat elems => iterPatListNames elems
  | .restElem arg => iterPatternNames arg
  | .assignPat left => iterPatternNames left
  | .otherP => []
def iterPatListNames : List Pat → List String
  | [] => []
  | p :: rest => iterPatternNames p ++ iterPatListNames rest
def iterPatPropNames : PatProp → List String
  | .propP value => iterPatternNames value
  | .restP arg => iterPatternNames arg
def iterPatPropListNames : List PatProp → List String
  | [] => []
  | p :: rest => iterPatPropNames p ++ iterPatPropListNames rest
end

/- ===== iterDeclaredNames, part_001 lines 173 to 186.
   The source loop over the declarators of a VariableDeclaration executes
   an unconditional break after the first declarator, so only the first
   declarator contributes names; no statement kind other than
   FunctionDeclaration and VariableDeclaration contributes anything, and
   there is no recursion into nested statements. -/

def iterDeclaredNames : Stmt → List String
  | .functionDecl id _ _ =>
      match id with
      | some n => [n]
      | none => []
  | .varDecl decls =>
      match decls with
      | [] => []
      | (pat, _) :: _ => iterPatternNames pat
  | _ => []

def declaredNamesOfBody (body : List Stmt) : List String :=
  body.flatMap iterDeclaredNames

/- ===== findFreeVariables walkers, part_001 lines 41 to 171. ===== -/

/-- The local binding set built at part_001 lines 44 to 58: the function
name if present, all parameter pattern names, and the iterDeclaredNames
of each direct child statement of the body. -/
def localsOf (id : Option String) (params : List Pat) (body : List Stmt) : List String :=
  (match id with | some n => [n] | none => []) ++
    params.flatMap iterPatternNames ++ declaredNamesOfBody body

mutual
def iterStatement : Stmt → List String
  | .functionDecl id params body =>
      (iterStmtList body).filter (fun name => !((localsOf id params body).contains name))
  | .block body => iterStmtList body
  | .doWhile body test => iterStatement body ++ iterExpression test
  | .exprStmt e => iterExpression e
  | .forStmt test update body => iterOptExpr test ++ iterOptExpr update ++ iterStatement body
  | .forIn right body => iterExpression right ++ iterStatement body
  | .ifStmt test consequent alternate =>
      iterExpression test ++ iterStatement consequent ++ iterOptStmt alternate
  | .labeled body => iterStatement body
  | .returnStmt arg => iterOptExpr arg
  | .varDecl decls => iterDeclInits decls
  | .whileStmt test body => iterExpression test ++ iterStatement body
  | .debuggerStmt => []
  | .emptyStmt => []
  | .breakStmt => []
  | .continueStmt => []
  | .otherS => []
def iterStmtList : List Stmt → List String
  | [] => []
  | s :: rest => iterStatement s ++ iterStmtList rest
def iterOptStmt : Option Stmt → List String
  | some s => iterStatement s
  | none => []
def iterDeclInits : List (Pat × Option Expr) → List String
  | [] => []
  | (_, some e) :: rest => iterExpression e ++ iterDeclInits rest
  | (_, none) :: rest => iterDeclInits rest
def iterExpression : Expr → List String
  | .assign _ right => iterExpression right
  | .binary left right => iterExpression left ++ iterExpression right
  | .call callee args =>
      (match callee with
       | .superKw => []
       | c => iterExpression c) ++ iterArgList args
  | .member obj _ =>
      match obj with
      | .superKw => []
      | o => iterExpression o
  | .identE name => [name]
  | .lit => []
  | .superKw => []
  | .otherE => []
def iterArgList : List Arg → List String
  | [] => []
  | .plainArg e :: rest => iterExpression e ++ iterArgList rest
  | .spreadArg _ :: rest => iterArgList rest
def iterOptExpr : Option Expr → List String
  | some e => iterExpression e
  | none => []
end

/-- Keep-first deduplication, the insertion behaviour of a JS Set. -/
def dedupFrom (seen : List String) : List String → List String
  | [] => []
  | x :: xs => if seen.contains x then dedupFrom seen xs else x :: dedupFrom (x :: seen) xs

def dedup (l : List String) : List String := dedupFrom [] l

def isFunctionDeclStmt : Stmt → Bool
  | .functionDecl _ _ _ => true
  | _ => false

def fnDeclId : Stmt → Option String
  | .functionDecl id _ _ => id
  | _ => none

/-- findFreeVariables, part_001 lines 26 to 39: filter the top level
function declarations, collect their names as the global set, walk each
declaration, and keep the yielded names outside the global set, with Set
insertion order. -/
def findFreeVariables (program : Program) : List String :=
  let functionDeclarations := program.filter isFunctionDeclStmt
  let globalVariables := functionDeclarations.filterMap fnDeclId
  dedup ((functionDeclarations.flatMap iterStatement).filter
    (fun name => !(globalVariables.contains name)))

/- ===== findP5MemberReferences walkers, part_001 lines 219 to 289.
   The statement dispatch covers only FunctionDeclaration (body children),
   VariableDeclaration (initializers), ExpressionStatement and
   ReturnStatement; everything else is the console.warn default.  The
   member rule fires only when the object is the identifier p5 and the
   property is an identifier; an AssignmentExpression contributes only its
   right hand side. -/

mutual
def p5IterStatement : Stmt → List String
  | .functionDecl _ _ body => p5IterStmtList body
  | .varDecl decls => p5IterDeclInits decls
  | .exprStmt e => p5IterExpression e
  | .returnStmt arg =>
      match arg with
      | some e => p5IterExpression e
      | none => []
  | _ => []
def p5IterStmtList : List Stmt → List String
  | [] => []
  | s :: rest => p5IterStatement s ++ p5IterStmtList rest
def p5IterDeclInits : List (Pat × Option Expr) → List String
  | [] => []
  | (_, some e) :: rest => p5IterExpression e ++ p5IterDeclInits rest
  | (_, none) :: rest => p5IterDeclInits rest
def p5IterExpression : Expr → List String
  | .assign _ right => p5IterExpression right
  | .binary left right => p5IterExpression left ++ p5IterExpression right
  | .call callee args =>
      (match callee with
       | .superKw => []
       | c => p5IterExpression c) ++ p5IterArgList args
  | .member obj prop =>
      match obj, prop with
      | .identE o, .identE p => if o == "p5" then [p] else []
      | _, _ => []
  | .identE _ => []
  | .lit => []
  | .superKw => []
  | .otherE => []
def p5IterArgList : List Arg → List String
  | [] => []
  | .plainArg e :: rest => p5IterExpression e ++ p5IterArgList rest
  | .spreadArg _ :: rest => p5IterArgList rest
end

/-- findP5MemberReferences, part_001 lines 219 to 227. -/
def findP5MemberReferences (program : Program) : List String :=
  dedup (p5IterStmtList program)

/- ===== File-system boundary model =====
   An Entry is one name of a directory listing together with what the
   external collaborators would report for it: whether it is a directory
   (fs.statSync(...).isDirectory()), its text content, the outcome of
   fs.readFileSync (none on success, an error message when the read
   fails), and nothing else.  The esprima parser is passed around as a
   function pf : String -> Except String Program (the error case carries
   the parser message), and the node-html-parser pipeline
   parse(content).querySelectorAll(script).map(node => node.attributes.src)
   is passed as hp : String -> List (Option String), none marking a script
   element without a src attribute. -/

structure Entry where
  name : String
  isDir : Bool
  content : String
  readError : Option String

structure Dir where
  path : String
  entries : List Entry

/-- The error values that can escape the analysed functions: the TypeError
raised by calling a method of undefined, the JavascriptSyntaxError class
of part_000 lines 163 to 173 (message, fileName, code), and any other
file-system error, rethrown unchanged. -/
inductive RuntimeError where
  | typeError (msg : String)
  | syntaxError (msg : String) (fileName : String) (code : String)
  | fsError (msg : String)
deriving DecidableEq, Repr

/-- parseOrReadJs, part_000 lines 175 to 182: read the file, parse it, and
wrap a parse failure as a JavascriptSyntaxError carrying the parser
message, the file path and the unmodified text; a read failure is not
caught and propagates. -/
def parseOrReadJs (pf : String → Except String Program) (filePath : String)
    (e : Entry) : Except RuntimeError Program :=
  match e.readError with
  | some m => .error (.fsError m)
  | none =>
      match pf e.content with
      | .ok program => .ok program
      | .error m => .error (.syntaxError m filePath e.content)

/-- checkedParseScript, part_001 lines 17 to 24, textually identical to
parseOrReadJs. -/
def checkedParseScript (pf : String → Except String Program) (filePath : String)
    (e : Entry) : Except RuntimeError Program :=
  match e.readError with
  | some m => .error (.fsError m)
  | none =>
      match pf e.content with
      | .ok program => .ok program
      | .error m => .error (.syntaxError m filePath e.content)

/-- The names of the top level function declarations of a program,
part_000 lines 152 to 153. -/
def topFnIds (program : Program) : List String :=
  (program.filter isFunctionDeclStmt).filterMap fnDeclId

/-- isSketchJs, part_000 lines 144 to 161.  Not a directory and a .js
path are preconditions of classification; on a successful parse the
verdict is membership of setup or draw among the top level function
names; a JavascriptSyntaxError is converted to the fallback search
e.code.search(function-s-plus-setup-or-draw) >= 0 over the retained raw
text; any other error is rethrown. -/
def isSketchJs (pf : String → Except String Program) (filePath : String)
    (e : Entry) : Except RuntimeError Bool :=
  if e.isDir then .ok false
  else if !(strEndsWith filePath ".js") then .ok false
  else
    match parseOrReadJs pf filePath e with
    | .ok program =>
        .ok ((topFnIds program).contains "setup" || (topFnIds program).contains "draw")
    | .error (.syntaxError _ _ code) => .ok ((fnSearchIdx code).isSome)
    | .error err => .error err

/-- The some-step of part_000 line 141: Array.prototype.some evaluates
src.search(pattern) left to right, treats the number as a boolean (zero
is falsy, every other number including -1 is truthy), and stops at the
first truthy result; reading .search of an absent src attribute raises a
TypeError. -/
def someSearch : List (Option String) → Except RuntimeError Bool
  | [] => .ok false
  | none :: _ => .error (.typeError "Cannot read property search of undefined")
  | some s :: rest => if p5Search s ≠ 0 then .ok true else someSearch rest

/-- isSketchHtml, part_000 lines 133 to 142. -/
def isSketchHtml (hp : String → List (Option String)) (filePath : String)
    (e : Entry) : Except RuntimeError Bool :=
  if e.isDir then .ok false
  else if !(strEndsWith filePath ".htm" || strEndsWith filePath ".html") then .ok false
  else
    match e.readError with
    | some m => .error (.fsError m)
    | none => someSearch (hp e.content)

/- ===== Project, part_000 lines 20 to 101. ===== -/

structure Project where
  dirPath : String
  indexPath : Option String
  sketchPath : Option String
  title : Option String
deriving DecidableEq, Repr

/-- JS truthiness filter for a nullable string field. -/
def strTruthy : Option String → Option String
  | some s => if strIsEmpty s then none else some s
  | none => none

/-- Project.files, part_000 lines 56 to 65: the basename of the index
path when that field is truthy, then the basename of the sketch path when
that field is truthy. -/
def Project.files (p : Project) : List String :=
  (match strTruthy p.indexPath with
   | some i => [basename i]
   | none => []) ++
  (match strTruthy p.sketchPath with
   | some s => [basename s]
   | none => [])

/-- Project.rootFile, part_000 lines 34 to 36: indexPath or sketchPath or
the basename of dirPath, by JS truthiness. -/
def Project.rootFile (p : Project) : String :=
  match strTruthy p.indexPath with
  | some i => i
  | none =>
      match strTruthy p.sketchPath with
      | some s => s
      | none => basename p.dirPath

/-- The replace of part_000 line 53, pattern (between slashes)
dot-htm-optional-l-or-js anchored at the end: strip a final .html, .htm
or .js, and otherwise leave the string unchanged. -/
def stripSketchExt (s : String) : String :=
  if strEndsWith s ".html" then (s.data.take (s.data.length - 5)).asString
  else if strEndsWith s ".htm" then (s.data.take (s.data.length - 4)).asString
  else if strEndsWith s ".js" then (s.data.take (s.data.length - 3)).asString
  else s

/-- Project.name, part_000 lines 38 to 54, against a file-system content
map fsys (path to content of an existing file, none when the path does
not exist). -/
def Project.name (fsys : String → Option String) (p : Project) : String :=
  match strTruthy p.title with
  | some t => t
  | none =>
      match strTruthy p.indexPath with
      | some i =>
          (match fsys (joinPath p.dirPath i) with
           | some content =>
               (match titleMatch content.data with
                | some captured => (trimChars captured).asString
                | none => stripSketchExt p.rootFile)
           | none => stripSketchExt p.rootFile)
      | none => stripSketchExt p.rootFile

/- ===== findProjects, part_000 lines 108 to 131. ===== -/

/-- The glob of part_000 line 110.  The source pattern is
star-dot-at(html|html): because the alternation repeats html instead of
offering htm, it matches exactly the names ending in .html, case
sensitively; the default glob dot rule keeps names starting with a dot
out.  The default alphabetical re-sort of glob is not modelled: entries
keep listing order, which no settled claim depends on. -/
def globHtml (entries : List Entry) : List Entry :=
  entries.filter (fun e => !(strStartsWith e.name ".") && strEndsWith e.name ".html")

/-- Step 1 loop of part_000 lines 110 to 116: each globbed markup name
that classifies as sketch markup becomes new Project(dir, file), that is
indexPath the markup name and sketchPath the default sketch.js. -/
def scanHtml (hp : String → List (Option String)) (dirPath : String) :
    List Entry → Except RuntimeError (List Project)
  | [] => .ok []
  | e :: rest =>
      match isSketchHtml hp (joinPath dirPath e.name) e with
      | .error err => .error err
      | .ok b =>
          match scanHtml hp dirPath rest with
          | .error err => .error err
          | .ok ps =>
              .ok (if b then Project.mk dirPath (some e.name) (some "sketch.js") none :: ps
                   else ps)

/-- removeProjectFiles, part_000 lines 128 to 130. -/
def removeProjectFiles (files : List String) (projects : List Project) : List String :=
  files.filter (fun f => !(projects.any (fun p => p.files.contains f)))

/-- Step 2 loop of part_000 lines 119 to 125 over the residual names:
each name whose entry classifies as a sketch script becomes
new Project(dir, null, file). -/
def scanJs (pf : String → Except String Program) (d : Dir) :
    List String → Except RuntimeError (List Project)
  | [] => .ok []
  | f :: rest =>
      match d.entries.find? (fun e => e.name == f) with
      | none => scanJs pf d rest
      | some e =>
          match isSketchJs pf (joinPath d.path f) e with
          | .error err => .error err
          | .ok b =>
              match scanJs pf d rest with
              | .error err => .error err
              | .ok ps =>
                  .ok (if b then Project.mk d.path none (some f) none :: ps else ps)

/-- findProjects, part_000 lines 108 to 131: markup projects first, then
script projects from the residual names, then the final residual list
recomputed against all projects. -/
def findProjects (pf : String → Except String Program)
    (hp : String → List (Option String)) (d : Dir) :
    Except RuntimeError (List String × List Project) :=
  match scanHtml hp d.path (globHtml d.entries) with
  | .error err => .error err
  | .ok ps1 =>
      let names := d.entries.map (fun e => e.name)
      match scanJs pf d (removeProjectFiles names ps1) with
      | .error err => .error err
      | .ok ps2 =>
          .ok (removeProjectFiles names (ps1 ++ ps2), ps1 ++ ps2)

/- ===== Definitions modelled from the spec wording, for comparison =====
   Each definition below follows the words of the spec sentence it is
   named after, not the source, and is used only to state refinement
   theorems against the source-derived definitions above. -/

/-- Modelled from the spec: sketch-markup content rule of section 4.4,
"contains at least one script element whose src attribute matches a path
ending in the runtime library script filename (with an optional minified
suffix), pattern p5(.min)?.js anchored at the end of the attribute
value". -/
def specHasP5Script (srcs : List (Option String)) : Bool :=
  srcs.any (fun o =>
    match o with
    | some s => (p5SearchIdx s).isSome
    | none => false)

def lowerStr (s : String) : String := (s.data.map Char.toLower).asString

/-- Modelled from the spec: the Step 1 enumeration rule of section 4.5,
"enumerate markup files (case-insensitive .htm slash .html)". -/
def specMarkupCandidateName (name : String) : Bool :=
  strEndsWith (lowerStr name) ".htm" || strEndsWith (lowerStr name) ".html"

/-- All declarator names of a variable declaration, every declarator
included. -/
def specDeclNames : List (Pat × Option Expr) → List String
  | [] => []
  | (pat, _) :: rest => iterPatternNames pat ++ specDeclNames rest

/- Modelled from the spec: the hoisting rule of sections 3 and 4.2,
"every name introduced by any function or variable declaration anywhere
in the body, independent of textual order or nesting inside blocks,
loops and conditionals" (declarations inside nested functions belong to
the nested body and are not collected). -/
mutual
def specHoistedOfStmt : Stmt → List String
  | .functionDecl id _ _ =>
      match id with
      | some n => [n]
      | none => []
  | .varDecl decls => specDeclNames decls
  | .block body => specHoistedOfBody body
  | .doWhile body _ => specHoistedOfStmt body
  | .forStmt _ _ body => specHoistedOfStmt body
  | .forIn _ body => specHoistedOfStmt body
  | .ifStmt _ consequent alternate =>
      specHoistedOfStmt consequent ++
        (match alternate with
         | some s => specHoistedOfStmt s
         | none => [])
  | .labeled body => specHoistedOfStmt body
  | .whileStmt _ body => specHoistedOfStmt body
  | _ => []
def specHoistedOfBody : List Stmt → List String
  | [] => []
  | s :: rest => specHoistedOfStmt s ++ specHoistedOfBody rest
end

/- ===== Concrete fixtures used by counterexamples and witnesses ===== -/

/-- HTML-parser boundary instance: the script src lists of the concrete
markup texts used below, in document order. -/
def exMarkupParse : String → List (Option String) := fun c =>
  if c = "<script src=\"jquery.js\"></script>" then [some "jquery.js"]
  else if c = "<script src=\"p5.js\"></script>" then [some "p5.js"]
  else if c = "<script src=\"lib/p5.min.js\"></script>" then [some "lib/p5.min.js"]
  else if c = "<script src=\"jquery.js\"></script><script>let x = 1;</script>" then
    [some "jquery.js", none]
  else if c = "<script>let x = 1;</script>" then [none]
  else []

def jqueryEntry : Entry :=
  Entry.mk "jquery.html" false "<script src=\"jquery.js\"></script>" none

def p5OnlyEntry : Entry :=
  Entry.mk "p5.html" false "<script src=\"p5.js\"></script>" none

def sketchIndexEntry : Entry :=
  Entry.mk "index.html" false "<script src=\"lib/p5.min.js\"></script>" none

def mixedScriptsEntry : Entry :=
  Entry.mk "mix.html" false
    "<script src=\"jquery.js\"></script><script>let x = 1;</script>" none

def noSrcEntry : Entry :=
  Entry.mk "nosrc.html" false "<script>let x = 1;</script>" none

def htmEntry : Entry :=
  Entry.mk "sketch.htm" false "<script src=\"lib/p5.min.js\"></script>" none

def exDir : Dir := Dir.mk "sketches" [sketchIndexEntry]

def htmDir : Dir := Dir.mk "sketches2" [htmEntry]

/-- Parser boundary instance: parses the one sketch text used by the
script fixtures and reports a syntax error on everything else. -/
def exParse : String → Except String Program := fun c =>
  if c = "function setup(){}" then .ok [Stmt.functionDecl (some "setup") [] []]
  else .error "Unexpected token"

def jsOkEntry : Entry := Entry.mk "sketch.js" false "function setup(){}" none

def jsBadEntry : Entry := Entry.mk "broken.js" false "function draw( ]" none

/-- The condition under which the some-step of isSketchHtml reaches a
script element without a src attribute: the scan, left to right, must
pass only src values whose search result is the falsy 0 before hitting
the absent attribute. -/
def srcErrReached : List (Option String) → Bool
  | [] => false
  | none :: _ => true
  | some s :: rest => (p5Search s == 0) && srcErrReached rest

/-- Body of the C3 fixture: var a = 1, b = 2; a + b; -/
def c3Body : List Stmt :=
  [Stmt.varDecl [(Pat.identP "a", some Expr.lit), (Pat.identP "b", some Expr.lit)],
   Stmt.exprStmt (Expr.binary (Expr.identE "a") (Expr.identE "b"))]

/-- C3 fixture program: function f() { var a = 1, b = 2; a + b; } -/
def c3Prog : Program := [Stmt.functionDecl (some "f") [] c3Body]

/-- C4 fixture program: p5.prototype.foo = 1; -/
def c4AssignProg : Program :=
  [Stmt.exprStmt (Expr.assign
    (Expr.member (Expr.member (Expr.identE "p5") (Expr.identE "prototype")) (Expr.identE "foo"))
    Expr.lit)]

/-- C4 comparison program: the bare statement p5.prototype; -/
def c4BareProg : Program :=
  [Stmt.exprStmt (Expr.member (Expr.identE "p5") (Expr.identE "prototype"))]

/-- C7 counterexample file system: one markup file with two title elements. -/
def c7Fsys : String → Option String := fun path =>
  if path = "proj/index.html" then some "<title>A</title><title>B</title>" else none

def c7Project : Project := Project.mk "proj" (some "index.html") (some "sketch.js") none

/-- C7 witness file system: two title elements with padded values. -/
def c7FsysW : String → Option String := fun path =>
  if path = "proj2/index.html" then
    some "<title> First </title><title> Second </title>"
  else none

def c7ProjectW : Project := Project.mk "proj2" (some "index.html") (some "sketch.js") none

/- =====================================================================
   Theorems
   ===================================================================== -/

/-- C1: the claim that isSketchHtml classifies a markup file as sketch
markup iff some script src matches the library pattern fails on the code.
Markup whose only script src is jquery.js classifies true, because
String.search returns -1 there and -1 is truthy inside Array.some, while
the spec pattern matches no src of that file; dually, markup whose only
script src is exactly p5.js classifies false, because the match index 0
is falsy, while the spec pattern does match that src. -/
theorem c1_search_truthiness_bug :
    isSketchHtml exMarkupParse "jquery.html" jqueryEntry = .ok true ∧
    specHasP5Script (exMarkupParse jqueryEntry.content) = false ∧
    isSketchHtml exMarkupParse "p5.html" p5OnlyEntry = .ok false ∧
    specHasP5Script (exMarkupParse p5OnlyEntry.content) = true :=
  ⟨rfl, rfl, rfl, rfl⟩

/-- C2 counterexample: scanning a directory whose only file is a sketch
markup file index.html produces a project whose files list contains the
default script name sketch.js, a name not present in the directory, so
the union of the project file sets together with the residual list is
strictly larger than the set of files originally present. -/
theorem c2_counterexample :
    findProjects exParse exMarkupParse exDir =
      .ok ([], [Project.mk "sketches" (some "index.html") (some "sketch.js") none]) ∧
    "sketch.js" ∈ (Project.mk "sketches" (some "index.html") (some "sketch.js") none).files ∧
    ¬ "sketch.js" ∈ exDir.entries.map (fun e => e.name) :=
  ⟨rfl, by decide, by decide⟩

/-- C3 counterexample: in function f() with body var a = 1, b = 2; a + b;
the name b is introduced by the second declarator of a variable
declaration of the body, yet findFreeVariables emits b as free, because
the declared-name collection breaks after the first declarator; so the
local binding set does not contain every declarator name. -/
theorem c3_counterexample :
    findFreeVariables c3Prog = ["b"] ∧ "b" ∈ specHoistedOfBody c3Body :=
  ⟨rfl, by decide⟩

/-- C4 counterexample: for the source p5.prototype.foo = 1; the extractor
returns the empty set, not the singleton prototype, because an
assignment expression contributes only its right hand side and the left
hand member chain is never walked. -/
theorem c4_counterexample :
    findP5MemberReferences c4AssignProg = [] ∧
    ¬ findP5MemberReferences c4AssignProg = ["prototype"] :=
  ⟨rfl, by decide⟩

/-- C4 amended: member-reference extraction returns the empty set for
p5.prototype.foo = 1; (assignment walks only the right hand side, and a
member access yields a name only when its object is directly the
namespace identifier, with no recursion into member objects); the bare
statement p5.prototype; does yield exactly prototype. -/
theorem c4_amended :
    findP5MemberReferences c4AssignProg = [] ∧
    findP5MemberReferences c4BareProg = ["prototype"] :=
  ⟨rfl, rfl⟩

/-- C6 counterexample: the markup file index.html of the scanned
directory references only the library script lib/p5.min.js, yet the
created project files list contains the script basename sketch.js, which
the markup does not reference: the script entry is present even though
the markup references no such script. -/
theorem c6_counterexample :
    findProjects exParse exMarkupParse exDir =
      .ok ([], [Project.mk "sketches" (some "index.html") (some "sketch.js") none]) ∧
    (Project.mk "sketches" (some "index.html") (some "sketch.js") none).files =
      ["index.html", "sketch.js"] ∧
    ¬ some "sketch.js" ∈ exMarkupParse sketchIndexEntry.content :=
  ⟨rfl, by decide, by decide⟩

/-- C7 counterexample: on a markup file whose raw text is a title element
A followed by a title element B, title resolution returns B, the value
of the last title element, not the first value A: the scan regex starts
with a greedy dot-star. -/
theorem c7_counterexample :
    Project.name c7Fsys c7Project = "B" ∧ ¬ Project.name c7Fsys c7Project = "A" :=
  ⟨rfl, by decide⟩

/-- C8: the claim that every file with a case-insensitive .htm or .html
extension is enumerated as a markup candidate fails on the code: the
glob pattern of the source repeats html in its alternation instead of
offering htm, so the file sketch.htm, which is sketch markup by the
content rule and a markup candidate by the spec, is never enumerated,
no project is created for it, and it stays in the residual list. -/
theorem c8_htm_never_enumerated :
    findProjects exParse exMarkupParse htmDir = .ok (["sketch.htm"], []) ∧
    specMarkupCandidateName "sketch.htm" = true ∧
    isSketchHtml exMarkupParse (joinPath "sketches2" "sketch.htm") htmEntry = .ok true :=
  ⟨rfl, rfl, rfl⟩

/-- C10 counterexample: a markup file whose first script has the src
jquery.js and whose second script has no src attribute classifies true
without any error, because the search result -1 of the first src is
truthy and Array.some stops there; so a script element lacking a src
attribute does not always make isSketchHtml raise a type error. -/
theorem c10_counterexample :
    isSketchHtml exMarkupParse "mix.html" mixedScriptsEntry = .ok true ∧
    none ∈ exMarkupParse mixedScriptsEntry.content :=
  ⟨rfl, by decide⟩

/-- The some-step raises a TypeError exactly when the scan reaches a
script without a src attribute, every earlier search result being the
falsy 0. -/
theorem someSearch_error_iff (l : List (Option String)) :
    (∃ m, someSearch l = .error (RuntimeError.typeError m)) ↔ srcErrReached l = true := by
  induction l with
  | nil => simp [someSearch, srcErrReached]
  | cons hd tl ih =>
      cases hd with
      | none => simp [someSearch, srcErrReached]
      | some s =>
          by_cases hz : p5Search s = 0
          · simpa [someSearch, srcErrReached, hz] using ih
          · simp [someSearch, srcErrReached, hz]

/-- C10 amended: for a non-directory file with a .htm or .html extension
whose read succeeds, sketch-markup classification raises a runtime type
error iff the script list, scanned in document order, reaches a script
element lacking a src attribute with every earlier script having a src
whose library-pattern search result is the falsy index 0; in particular
a srcless script preceded by any script with a truthy search result is
never reached and no error is raised. -/
theorem c10_amended (hp : String → List (Option String)) (fp : String) (e : Entry)
    (hdir : e.isDir = false)
    (hext : (strEndsWith fp ".htm" || strEndsWith fp ".html") = true)
    (hread : e.readError = none) :
    (∃ m, isSketchHtml hp fp e = .error (RuntimeError.typeError m)) ↔
      srcErrReached (hp e.content) = true := by
  rw [show isSketchHtml hp fp e = someSearch (hp e.content) by
    simp [isSketchHtml, hdir, hext, hread]]
  exact someSearch_error_iff (hp e.content)

/-- C10 amended witness: on a markup file whose only script element lacks
a src attribute, classification raises the type error. -/
theorem c10_amended_witness :
    ∃ m, isSketchHtml exMarkupParse "nosrc.html" noSrcEntry =
      .error (RuntimeError.typeError m) :=
  (c10_amended exMarkupParse "nosrc.html" noSrcEntry rfl (by decide) rfl).mpr (by decide)

/-- C9: when the read of the source text succeeds, parsing (parseOrReadJs
and the identical checkedParseScript) either returns the parsed tree
unchanged or fails with a JavascriptSyntaxError whose message is the
parser message, whose fileName is the file identifier and whose code is
the unmodified input text; no other outcome is possible. -/
theorem c9_parse_contract (pf : String → Except String Program) (fp : String) (e : Entry)
    (hread : e.readError = none) :
    (∃ program, pf e.content = .ok program ∧
        parseOrReadJs pf fp e = .ok program ∧
        checkedParseScript pf fp e = .ok program) ∨
    (∃ m, pf e.content = .error m ∧
        parseOrReadJs pf fp e = .error (RuntimeError.syntaxError m fp e.content) ∧
        checkedParseScript pf fp e = .error (RuntimeError.syntaxError m fp e.content)) := by
  unfold parseOrReadJs checkedParseScript
  rw [hread]
  cases hc : pf e.content with
  | ok program => exact Or.inl ⟨program, rfl, rfl, rfl⟩
  | error m => exact Or.inr ⟨m, rfl, rfl, rfl⟩

/-- C9 witness: on a file whose content parses, both entry points return
the tree; the hypothesis that the read succeeds is discharged at the
concrete entry. -/
theorem c9_parse_contract_witness :
    (∃ program, exParse jsOkEntry.content = .ok program ∧
        parseOrReadJs exParse "sketch.js" jsOkEntry = .ok program ∧
        checkedParseScript exParse "sketch.js" jsOkEntry = .ok program) ∨
    (∃ m, exParse jsOkEntry.content = .error m ∧
        parseOrReadJs exParse "sketch.js" jsOkEntry =
          .error (RuntimeError.syntaxError m "sketch.js" jsOkEntry.content) ∧
        checkedParseScript exParse "sketch.js" jsOkEntry =
          .error (RuntimeError.syntaxError m "sketch.js" jsOkEntry.content)) :=
  c9_parse_contract exParse "sketch.js" jsOkEntry rfl

/-- C5: for a non-directory .js file, classification propagates a read
failure unchanged as a non-syntax error; when the read succeeds and the
content parses, it returns a boolean that is true iff the set of
top-level function-declaration names includes setup or draw (topFnIds
filters the top level only, so nested declarations never count); when
the content fails to parse, it returns a boolean that is true iff the
raw retained source matches the fallback pattern, the keyword function,
whitespace, then setup or draw as a whole word, at some index; and a
JavascriptSyntaxError value is never raised to the caller. -/
theorem c5_isSketchJs_contract (pf : String → Except String Program) (fp : String) (e : Entry)
    (hdir : e.isDir = false) (hjs : strEndsWith fp ".js" = true) :
    (∀ m, e.readError = some m → isSketchJs pf fp e = .error (RuntimeError.fsError m)) ∧
    (∀ program, e.readError = none → pf e.content = .ok program →
        (isSketchJs pf fp e = .ok true ↔
          "setup" ∈ topFnIds program ∨ "draw" ∈ topFnIds program) ∧
        ∃ b, isSketchJs pf fp e = .ok b) ∧
    (∀ m, e.readError = none → pf e.content = .error m →
        (isSketchJs pf fp e = .ok true ↔
          ∃ i, i ≤ e.content.data.length ∧ fnMatchAt e.content.data i = true) ∧
        ∃ b, isSketchJs pf fp e = .ok b) ∧
    (∀ msg fn code, ¬ isSketchJs pf fp e = .error (RuntimeError.syntaxError msg fn code)) := by
  refine ⟨?_, ?_, ?_, ?_⟩
  · intro m hread
    simp [isSketchJs, parseOrReadJs, hdir, hjs, hread]
  · intro program hread hok
    constructor
    · simp only [isSketchJs, parseOrReadJs, hdir, hjs, hread, hok]
      simp [List.elem_iff]
    · exact ⟨(topFnIds program).contains "setup" || (topFnIds program).contains "draw",
        by simp [isSketchJs, parseOrReadJs, hdir, hjs, hread, hok]⟩
  · intro m hread herr
    constructor
    · simp only [isSketchJs, parseOrReadJs, hdir, hjs, hread, herr]
      simp [fnSearchIdx, List.find?_isSome, List.mem_range, Nat.lt_succ_iff]
    · exact ⟨(fnSearchIdx e.content).isSome,
        by simp [isSketchJs, parseOrReadJs, hdir, hjs, hread, herr]⟩
  · intro msg fn code
    cases hread : e.readError with
    | some m => simp [isSketchJs, parseOrReadJs, hdir, hjs, hread]
    | none =>
        cases hc : pf e.content with
        | ok program => simp [isSketchJs, parseOrReadJs, hdir, hjs, hread, hc]
        | error m => simp [isSketchJs, parseOrReadJs, hdir, hjs, hread, hc]

/-- C5 witness: the success branch of the contract applied to a concrete
parsed sketch file declaring setup at the top level. -/
theorem c5_isSketchJs_contract_witness :
    (isSketchJs exParse "sketch.js" jsOkEntry = .ok true ↔
      "setup" ∈ topFnIds [Stmt.functionDecl (some "setup") [] []] ∨
      "draw" ∈ topFnIds [Stmt.functionDecl (some "setup") [] []]) ∧
    ∃ b, isSketchJs exParse "sketch.js" jsOkEntry = .ok b :=
  (c5_isSketchJs_contract exParse "sketch.js" jsOkEntry rfl (by decide)).2.1
    [Stmt.functionDecl (some "setup") [] []] rfl rfl

/-- A successful scan decomposes into its two steps: the markup projects,
the script projects obtained from the residual names of step one, and
the final residual list recomputed against all projects. -/
theorem findProjects_parts {pf : String → Except String Program}
    {hp : String → List (Option String)} {d : Dir} {fls : List String} {ps : List Project}
    (h : findProjects pf hp d = .ok (fls, ps)) :
    ∃ ps1 ps2,
      scanHtml hp d.path (globHtml d.entries) = .ok ps1 ∧
      scanJs pf d (removeProjectFiles (d.entries.map (fun e => e.name)) ps1) = .ok ps2 ∧
      ps = ps1 ++ ps2 ∧
      fls = removeProjectFiles (d.entries.map (fun e => e.name)) (ps1 ++ ps2) := by
  cases h1 : scanHtml hp d.path (globHtml d.entries) with
  | error err => simp [findProjects, h1] at h
  | ok ps1 =>
      cases h2 : scanJs pf d (removeProjectFiles (d.entries.map (fun e => e.name)) ps1) with
      | error err => simp [findProjects, h1, h2] at h
      | ok ps2 =>
          simp only [findProjects, h1, h2, Except.ok.injEq, Prod.mk.injEq] at h
          exact ⟨ps1, ps2, rfl, h2, h.2.symm, h.1.symm⟩

/-- C2 amended: for every directory whose scan completes without a
runtime error, the residual list is disjoint from every project file
set, and every file originally present in the directory appears in
exactly one of the two; the projects may additionally claim the default
script name sketch.js, a name that need not be among the original
files, so the two sides together may strictly exceed the original set. -/
theorem c2_amended (pf : String → Except String Program)
    (hp : String → List (Option String)) (d : Dir) (fls : List String) (ps : List Project)
    (h : findProjects pf hp d = .ok (fls, ps)) :
    (∀ f ∈ fls, ∀ p ∈ ps, ¬ f ∈ p.files) ∧
    (∀ n ∈ d.entries.map (fun e => e.name),
        (n ∈ fls ∧ ∀ p ∈ ps, ¬ n ∈ p.files) ∨ (¬ n ∈ fls ∧ ∃ p ∈ ps, n ∈ p.files)) := by
  obtain ⟨ps1, ps2, h1, h2, hps, hfls⟩ := findProjects_parts h
  subst hps
  subst hfls
  constructor
  · intro f hf p hpmem hmem
    simp only [removeProjectFiles, List.mem_filter] at hf
    obtain ⟨-, hcond⟩ := hf
    have hany : (ps1 ++ ps2).any (fun p => p.files.contains f) = true :=
      List.any_eq_true.mpr ⟨p, hpmem, List.elem_iff.mpr hmem⟩
    rw [hany] at hcond
    cases hcond
  · intro n hn
    by_cases hc : ∃ p ∈ ps1 ++ ps2, n ∈ p.files
    · refine Or.inr ⟨?_, hc⟩
      intro hmem
      simp only [removeProjectFiles, List.mem_filter] at hmem
      obtain ⟨-, hcond⟩ := hmem
      obtain ⟨p, hp1, hp2⟩ := hc
      have hany : (ps1 ++ ps2).any (fun p => p.files.contains n) = true :=
        List.any_eq_true.mpr ⟨p, hp1, List.elem_iff.mpr hp2⟩
      rw [hany] at hcond
      cases hcond
    · refine Or.inl ⟨?_, fun p hp1 hp2 => hc ⟨p, hp1, hp2⟩⟩
      simp only [removeProjectFiles, List.mem_filter]
      refine ⟨hn, ?_⟩
      cases hany : (ps1 ++ ps2).any (fun p => p.files.contains n) with
      | false => rfl
      | true =>
          obtain ⟨p, hp1, hp2⟩ := List.any_eq_true.mp hany
          exact absurd ⟨p, hp1, List.elem_iff.mp hp2⟩ hc

/-- C2 amended witness: the amended invariant instantiated at the
concrete one-file directory. -/
theorem c2_amended_witness :
    (∀ f ∈ ([] : List String),
        ∀ p ∈ [Project.mk "sketches" (some "index.html") (some "sketch.js") none],
          ¬ f ∈ p.files) ∧
    (∀ n ∈ exDir.entries.map (fun e => e.name),
        (n ∈ ([] : List String) ∧
            ∀ p ∈ [Project.mk "sketches" (some "index.html") (some "sketch.js") none],
              ¬ n ∈ p.files) ∨
        (¬ n ∈ ([] : List String) ∧
            ∃ p ∈ [Project.mk "sketches" (some "index.html") (some "sketch.js") none],
              n ∈ p.files)) :=
  c2_amended exParse exMarkupParse exDir []
    [Project.mk "sketches" (some "index.html") (some "sketch.js") none] rfl

/-- Every project produced by the markup step comes from a globbed entry
that classified as sketch markup, and is built by the two-argument
constructor call: the entry name as index path and the default
sketch.js as sketch path. -/
theorem scanHtml_mem {hp : String → List (Option String)} {dirPath : String} :
    ∀ {es : List Entry} {ps : List Project}, scanHtml hp dirPath es = .ok ps →
      ∀ p ∈ ps, ∃ e ∈ es, isSketchHtml hp (joinPath dirPath e.name) e = .ok true ∧
        p = Project.mk dirPath (some e.name) (some "sketch.js") none := by
  intro es
  induction es with
  | nil =>
      intro ps h p hpmem
      simp only [scanHtml, Except.ok.injEq] at h
      subst h
      cases hpmem
  | cons e rest ih =>
      intro ps h p hpmem
      cases hb : isSketchHtml hp (joinPath dirPath e.name) e with
      | error err =>
          simp only [scanHtml, hb] at h
          exact Except.noConfusion h
      | ok b =>
          cases hrest : scanHtml hp dirPath rest with
          | error err =>
              simp only [scanHtml, hb, hrest] at h
              exact Except.noConfusion h
          | ok ps1 =>
              simp only [scanHtml, hb, hrest, Except.ok.injEq] at h
              cases b with
              | false =>
                  simp only [Bool.false_eq_true, if_false] at h
                  subst h
                  obtain ⟨e0, he0, hcl, hpe⟩ := ih hrest p hpmem
                  exact ⟨e0, List.mem_cons_of_mem _ he0, hcl, hpe⟩
              | true =>
                  simp only [if_true] at h
                  subst h
                  rcases List.mem_cons.mp hpmem with hhead | htail
                  · exact ⟨e, List.mem_cons_self _ _, hb, hhead⟩
                  · obtain ⟨e0, he0, hcl, hpe⟩ := ih hrest p htail
                    exact ⟨e0, List.mem_cons_of_mem _ he0, hcl, hpe⟩

/-- Every project produced by the script step has no index path: it is
built by the three-argument constructor call with null index. -/
theorem scanJs_noIndex {pf : String → Except String Program} {d : Dir} :
    ∀ {l : List String} {ps : List Project}, scanJs pf d l = .ok ps →
      ∀ p ∈ ps, p.indexPath = none := by
  intro l
  induction l with
  | nil =>
      intro ps h p hpmem
      simp only [scanJs, Except.ok.injEq] at h
      subst h
      cases hpmem
  | cons f rest ih =>
      intro ps h p hpmem
      cases hfind : d.entries.find? (fun e => e.name == f) with
      | none =>
          simp only [scanJs, hfind] at h
          exact ih h p hpmem
      | some e =>
          cases hb : isSketchJs pf (joinPath d.path f) e with
          | error err =>
              simp only [scanJs, hfind, hb] at h
              exact Except.noConfusion h
          | ok b =>
              cases hrest : scanJs pf d rest with
              | error err =>
                  simp only [scanJs, hfind, hb, hrest] at h
                  exact Except.noConfusion h
              | ok ps1 =>
                  simp only [scanJs, hfind, hb, hrest, Except.ok.injEq] at h
                  cases b with
                  | false =>
                      simp only [Bool.false_eq_true, if_false] at h
                      subst h
                      exact ih hrest p hpmem
                  | true =>
                      simp only [if_true] at h
                      subst h
                      rcases List.mem_cons.mp hpmem with hhead | htail
                      · rw [hhead]
                      · exact ih hrest p htail

/-- A string with a non-empty suffix is itself non-empty. -/
theorem strEndsWith_notEmpty {s suf : String} (hlen : 0 < suf.data.length)
    (h : strEndsWith s suf = true) : strIsEmpty s = false := by
  simp only [strEndsWith, Bool.and_eq_true, decide_eq_true_eq] at h
  obtain ⟨hle, -⟩ := h
  simp only [strIsEmpty, List.isEmpty_eq_false]
  intro hnil
  rw [hnil] at hle
  simp only [List.length_nil, Nat.le_zero] at hle
  omega

/-- C6 amended: every project of a completed scan that names a markup
file (the index path is set) was created from a globbed .html entry, its
sketch path is always the default name sketch.js regardless of what
scripts the markup references, and its files list is the markup basename
first and sketch.js second. -/
theorem c6_amended (pf : String → Except String Program)
    (hp : String → List (Option String)) (d : Dir) (fls : List String) (ps : List Project)
    (h : findProjects pf hp d = .ok (fls, ps)) :
    ∀ p ∈ ps, ∀ i, p.indexPath = some i →
      p.sketchPath = some "sketch.js" ∧ strEndsWith i ".html" = true ∧
      p.files = [basename i, "sketch.js"] := by
  obtain ⟨ps1, ps2, h1, h2, hps, -⟩ := findProjects_parts h
  subst hps
  intro p hpmem i hidx
  rcases List.mem_append.mp hpmem with hmem1 | hmem2
  · obtain ⟨e, hemem, -, hpe⟩ := scanHtml_mem h1 p hmem1
    subst hpe
    injection hidx with hi
    subst hi
    have hpair := (List.mem_filter.mp hemem).2
    simp only [Bool.and_eq_true] at hpair
    have hhtml : strEndsWith e.name ".html" = true := hpair.2
    have hne : strIsEmpty e.name = false := strEndsWith_notEmpty (by decide) hhtml
    have hbs : basename "sketch.js" = "sketch.js" := rfl
    have hsk : strIsEmpty "sketch.js" = false := rfl
    refine ⟨rfl, hhtml, ?_⟩
    simp [Project.files, strTruthy, hne, hsk, hbs]
  · have hidxnone := scanJs_noIndex h2 p hmem2
    rw [hidx] at hidxnone
    cases hidxnone

/-- C6 amended witness: the amended statement instantiated at the
concrete scan, whose single project names index.html and carries the
default sketch.js second. -/
theorem c6_amended_witness :
    (Project.mk "sketches" (some "index.html") (some "sketch.js") none).sketchPath =
      some "sketch.js" ∧
    strEndsWith "index.html" ".html" = true ∧
    (Project.mk "sketches" (some "index.html") (some "sketch.js") none).files =
      [basename "index.html", "sketch.js"] :=
  c6_amended exParse exMarkupParse exDir []
    [Project.mk "sketches" (some "index.html") (some "sketch.js") none] rfl
    (Project.mk "sketches" (some "index.html") (some "sketch.js") none)
    (List.mem_singleton.mpr rfl) "index.html" rfl

/-- Keep-first deduplication only drops elements: membership in the
result implies membership in the input. -/
theorem mem_dedupFrom {x : String} :
    ∀ {seen l : List String}, x ∈ dedupFrom seen l → x ∈ l := by
  intro seen l
  induction l generalizing seen with
  | nil => intro h; cases h
  | cons hd tl ih =>
      intro h
      simp only [dedupFrom] at h
      by_cases hc : seen.contains hd = true
      · rw [if_pos hc] at h
        exact List.mem_cons_of_mem _ (ih h)
      · rw [if_neg hc] at h
        rcases List.mem_cons.mp h with hhd | htl
        · rw [hhd]; exact List.mem_cons_self _ _
        · exact List.mem_cons_of_mem _ (ih htl)

/-- C3 amended: the local binding set of a function declaration consists
of its own name, its parameter pattern names, and the names contributed
by each direct child statement of the body, where a variable declaration
contributes only the pattern names of its first declarator; every name
so collected, wherever the contributing child sits in the body, is never
emitted as free from that function, neither by the body walk nor by
findFreeVariables on the single-function program; declarators after the
first and declarations nested deeper are simply not collected. -/
theorem c3_amended (id : Option String) (params : List Pat) (body : List Stmt) (name : String)
    (hdecl : name ∈ declaredNamesOfBody body) :
    ¬ name ∈ iterStatement (Stmt.functionDecl id params body) ∧
    ¬ name ∈ findFreeVariables [Stmt.functionDecl id params body] := by
  have hlocal : name ∈ localsOf id params body := by
    simp only [localsOf, List.mem_append]
    exact Or.inr hdecl
  have h1 : ¬ name ∈ iterStatement (Stmt.functionDecl id params body) := by
    intro hmem
    simp only [iterStatement] at hmem
    rw [List.mem_filter] at hmem
    obtain ⟨-, hcond⟩ := hmem
    have hcontains : (localsOf id params body).contains name = true :=
      List.elem_iff.mpr hlocal
    rw [hcontains] at hcond
    simp at hcond
  refine ⟨h1, ?_⟩
  intro hmem
  simp only [findFreeVariables, dedup] at hmem
  have hmem2 := mem_dedupFrom hmem
  rw [List.mem_filter] at hmem2
  have hmem3 := hmem2.1
  simp only [List.filter_cons, isFunctionDeclStmt, if_true, List.filter_nil,
    List.flatMap_cons, List.flatMap_nil, List.append_nil] at hmem3
  exact h1 hmem3

/-- C3 amended witness: the name a, bound by the first declarator of the
direct-child variable declaration of the fixture body, is never emitted
as free. -/
theorem c3_amended_witness :
    ¬ "a" ∈ iterStatement (Stmt.functionDecl (some "f") [] c3Body) ∧
    ¬ "a" ∈ findFreeVariables [Stmt.functionDecl (some "f") [] c3Body] :=
  c3_amended (some "f") [] c3Body "a" (by decide)

/-- The pattern sitting immediately after a known leading part occurs
there. -/
theorem isAt_append_here (a pat rest : List Char) :
    isAt (a ++ (pat ++ rest)) a.length pat = true := by
  simp only [isAt]
  rw [List.drop_left, List.take_left]
  simp

/-- Variant of isAt_append_here stated through an equation for the whole
list. -/
theorem isAt_of_eq_parts {s : List Char} (a pat rest : List Char)
    (hs : s = a ++ (pat ++ rest)) : isAt s a.length pat = true := by
  rw [hs]; exact isAt_append_here a pat rest

/-- The downward scan finds m when p holds at m and fails strictly above
m up to the bound. -/
theorem lastPosWhere_eq_some (p : Nat → Bool) (m : Nat) :
    ∀ n, m ≤ n → p m = true → (∀ j, m < j → j ≤ n → p j = false) →
      lastPosWhere p n = some m := by
  intro n
  induction n with
  | zero =>
      intro hm hp _
      have h0 : m = 0 := Nat.le_zero.mp hm
      subst h0
      simp [lastPosWhere, hp]
  | succ n ih =>
      intro hm hp hafter
      by_cases he : m = n + 1
      · subst he
        simp [lastPosWhere, hp]
      · have hm' : m ≤ n := by omega
        have hfalse : p (n + 1) = false := hafter (n + 1) (by omega) (by omega)
        simp only [lastPosWhere, hfalse, Bool.false_eq_true, if_false]
        exact ih hm' hp (fun j hj1 hj2 => hafter j hj1 (by omega))

/-- The greedy title scan on a text of the form u, an opening tag, a
non-empty value v, a closing tag, then w, captures exactly v whenever no
opening tag occurs after u and no closing tag occurs after the one
shown. -/
theorem titleMatch_concat (u v w : List Char) (hv : v ≠ [])
    (h1 : ∀ q, q ≤ (u ++ (titleOpenChars ++ (v ++ (titleCloseChars ++ w)))).length →
        u.length < q →
        isAt (u ++ (titleOpenChars ++ (v ++ (titleCloseChars ++ w)))) q titleOpenChars = false)
    (h2 : ∀ q, q ≤ (u ++ (titleOpenChars ++ (v ++ (titleCloseChars ++ w)))).length →
        u.length + 7 + v.length < q →
        isAt (u ++ (titleOpenChars ++ (v ++ (titleCloseChars ++ w)))) q titleCloseChars = false) :
    titleMatch (u ++ (titleOpenChars ++ (v ++ (titleCloseChars ++ w)))) = some v := by
  set s := u ++ (titleOpenChars ++ (v ++ (titleCloseChars ++ w))) with hs
  have h7 : titleOpenChars.length = 7 := rfl
  have h8 : titleCloseChars.length = 8 := rfl
  have hvlen : 0 < v.length := List.length_pos.mpr hv
  have hslen : s.length = u.length + 7 + v.length + 8 + w.length := by
    simp only [hs, List.length_append, h7, h8]
    omega
  have hopen : isAt s u.length titleOpenChars = true := isAt_of_eq_parts u titleOpenChars _ hs
  have hclose : isAt s (u.length + 7 + v.length) titleCloseChars = true := by
    have hs2 : s = (u ++ titleOpenChars ++ v) ++ (titleCloseChars ++ w) := by
      rw [hs]; simp [List.append_assoc]
    have hlen2 : (u ++ titleOpenChars ++ v).length = u.length + 7 + v.length := by
      simp only [List.length_append, h7]
    rw [← hlen2]
    exact isAt_of_eq_parts _ _ _ hs2
  have hpred1 : (isAt s u.length titleOpenChars && hasCloseAfter s u.length) = true := by
    rw [hopen, Bool.true_and]
    simp only [hasCloseAfter, List.any_eq_true]
    refine ⟨u.length + 7 + v.length, List.mem_range.mpr (by omega), ?_⟩
    rw [hclose]
    simp only [Bool.and_true, decide_eq_true_eq]
    omega
  have hlast1 :
      lastPosWhere (fun k => isAt s k titleOpenChars && hasCloseAfter s k) s.length =
        some u.length := by
    apply lastPosWhere_eq_some _ _ _ (by omega) hpred1
    intro j hj1 hj2
    rw [h1 j hj2 hj1, Bool.false_and]
  have hpred2 :
      (decide (u.length + 8 ≤ u.length + 7 + v.length) &&
        isAt s (u.length + 7 + v.length) titleCloseChars) = true := by
    rw [hclose]
    simp only [Bool.and_true, decide_eq_true_eq]
    omega
  have hlast2 :
      lastPosWhere (fun j => decide (u.length + 8 ≤ j) && isAt s j titleCloseChars) s.length =
        some (u.length + 7 + v.length) := by
    apply lastPosWhere_eq_some _ _ _ (by omega) hpred2
    intro j hj1 hj2
    rw [h2 j hj2 hj1, Bool.and_false]
  simp only [titleMatch, hlast1, hlast2, Option.some.injEq]
  have hdrop : s.drop (u.length + 7) = v ++ (titleCloseChars ++ w) := by
    have hs3 : s = (u ++ titleOpenChars) ++ (v ++ (titleCloseChars ++ w)) := by
      rw [hs]; simp [List.append_assoc]
    have hlen3 : (u ++ titleOpenChars).length = u.length + 7 := by
      simp only [List.length_append, h7]
    rw [hs3, ← hlen3, List.drop_left]
  rw [hdrop]
  have harith : u.length + 7 + v.length - (u.length + 7) = v.length := by omega
  rw [harith, List.take_left]

/-- C7 amended: title resolution returns the explicit title when one is
set and non-empty; otherwise, when the markup file exists, the trimmed
value of the LAST title element found by the dot-matching case-sensitive
scan of its raw text (the leading greedy dot-star of the scan pattern
selects the last opening tag with a later closing tag, and the greedy
group extends the value to the last closing tag); otherwise the root
file basename with a final .html, .htm or .js extension removed. -/
theorem c7_amended :
    (∀ (fsys : String → Option String) (p : Project) (t : String),
        p.title = some t → strIsEmpty t = false → Project.name fsys p = t) ∧
    (∀ (fsys : String → Option String) (p : Project) (i content : String)
        (u v w : List Char),
        p.title = none → p.indexPath = some i → strIsEmpty i = false →
        fsys (joinPath p.dirPath i) = some content →
        content.data = u ++ (titleOpenChars ++ (v ++ (titleCloseChars ++ w))) →
        v ≠ [] →
        (∀ q, q ≤ content.data.length → u.length < q →
            isAt content.data q titleOpenChars = false) →
        (∀ q, q ≤ content.data.length → u.length + 7 + v.length < q →
            isAt content.data q titleCloseChars = false) →
        Project.name fsys p = (trimChars v).asString) ∧
    (∀ (fsys : String → Option String) (p : Project) (i : String),
        p.title = none → p.indexPath = some i → strIsEmpty i = false →
        fsys (joinPath p.dirPath i) = none →
        Project.name fsys p = stripSketchExt p.rootFile) ∧
    (∀ (fsys : String → Option String) (p : Project),
        p.title = none → p.indexPath = none →
        Project.name fsys p = stripSketchExt p.rootFile) := by
  refine ⟨?_, ?_, ?_, ?_⟩
  · intro fsys p t ht hne
    simp [Project.name, strTruthy, ht, hne]
  · intro fsys p i content u v w ht hidx hine hfsys hdata hv h1 h2
    have htm : titleMatch content.data = some v := by
      rw [hdata]
      exact titleMatch_concat u v w hv (hdata ▸ h1) (hdata ▸ h2)
    simp [Project.name, strTruthy, ht, hidx, hine, hfsys, htm]
  · intro fsys p i ht hidx hine hfsys
    simp [Project.name, strTruthy, ht, hidx, hine, hfsys]
  · intro fsys p ht hidx
    simp [Project.name, strTruthy, ht, hidx]

/-- C7 amended witness: on a markup text holding a first and a second
title element with padded values, resolution returns the trimmed value
of the second, last, element. -/
theorem c7_amended_witness : Project.name c7FsysW c7ProjectW = "Second" := by
  have h := c7_amended.2.1 c7FsysW c7ProjectW "index.html"
    "<title> First </title><title> Second </title>"
    ("<title> First </title>".data) (" Second ".data) []
    rfl rfl (by decide) (by decide) (by decide) (by decide) (by decide) (by decide)
  exact h.trans (by decide)

end P5
